import Mathlib

/-!
Shallow embedding of the conversation-state core of the LangGraph chatbot
repository (files `langgraph_database_backend.py` and
`streamlit_frontend_database.py`), together with theorems settling the
specification claims about it.

Messages are the LangChain message variants the code manipulates
(`HumanMessage`, `AIMessage`, `ToolMessage`); message contents are strings.
Character-level string operations (Python `re` and `str` methods) are
modelled over the characters the code actually handles, with the ASCII
character classes of `\w` and `\s` plus the specific non-ASCII quote,
bullet and punctuation characters named in the source regexes.
-/

namespace Chatbot

/-- The LangChain message variants used by the code:
`HumanMessage{content}`, `AIMessage{content, tool_calls}` (tool calls kept as
the list of requested tool names), `ToolMessage{name, content}`. -/
inductive Msg : Type
  | human (content : String)
  | ai (content : String) (tool_calls : List String)
  | tool (name : String) (content : String)
  deriving DecidableEq, Repr

namespace Msg

def isHuman : Msg → Bool
  | .human _ => true
  | .ai _ _ => false
  | .tool _ _ => false

def isAI : Msg → Bool
  | .human _ => false
  | .ai _ _ => true
  | .tool _ _ => false

def isTool : Msg → Bool
  | .human _ => false
  | .ai _ _ => false
  | .tool _ _ => true

/-- `getattr(msg, "name", "tool")` on a `ToolMessage`. -/
def toolName : Msg → Option String
  | .human _ => none
  | .ai _ _ => none
  | .tool n _ => some n

end Msg

/-! ### Checkpoint store

Modelled from the spec: the `SqliteSaver` checkpointer and the
`add_messages` reducer declared on `ChatState.messages`
(`langgraph_database_backend.py` lines 24-26, 36-50) are library code whose
implementation is not part of this repository.  Following the spec (and the
source comment "reducer enforces appending messages instead of replacing"),
the store is a write-ordered list of snapshots keyed by thread id; a turn
appends a new snapshot whose message sequence is the previous latest
sequence with the turn's new messages concatenated at the end. -/

/-- One durable checkpoint: a thread id together with the full message
sequence at that point. -/
abbrev Checkpoint := String × List Msg

/-- The checkpoint store: snapshots in write order (later writes later). -/
abbrev CheckpointStore := List Checkpoint

/-- Latest checkpointed message sequence of a thread, or `[]` when the
thread id has never been written (`getLatest`). -/
def getLatest (store : CheckpointStore) (tid : String) : List Msg :=
  match (store.reverse.find? (fun cp => cp.1 = tid)) with
  | some cp => cp.2
  | none => []

/-- `append(threadId, incomingMessages)`: write a new snapshot whose
sequence is the previous latest sequence with `ms` concatenated after it. -/
def appendCheckpoint (store : CheckpointStore) (tid : String) (ms : List Msg) :
    CheckpointStore :=
  store ++ [(tid, getLatest store tid ++ ms)]

/-- `load_conversation` (`streamlit_frontend_database.py` lines 34-39):
fetch the latest state for the thread; a missing state or missing
`"messages"` key yields `[]`. -/
def load_conversation (store : CheckpointStore) (tid : String) : List Msg :=
  getLatest store tid

/-- `retrieve_all_threads` (`langgraph_database_backend.py` lines 65-71):
collect the thread id of every checkpoint into a set and return it as a
list; the set is modelled as `List.dedup`. -/
def retrieve_all_threads (store : CheckpointStore) : List String :=
  (store.map Prod.fst).dedup

/-! ### Thread summary store

`thread_summaries` table: rows `(thread_id, title, updated_at)` with
`thread_id` the primary key.  `save_thread_summary` is the
`INSERT ... ON CONFLICT(thread_id) DO UPDATE` upsert
(`langgraph_database_backend.py` lines 74-85); `get_thread_summary` is the
`SELECT title ... WHERE thread_id = ?` lookup (lines 87-92). -/

structure SummaryRow where
  thread_id : String
  title : String
  updated_at : String
  deriving DecidableEq, Repr

abbrev SummaryDB := List SummaryRow

/-- Upsert: replace the row with this primary key in place, or insert a new
row; `updated_at` is set to the current time `now` on every write. -/
def save_thread_summary (db : SummaryDB) (tid title now : String) : SummaryDB :=
  if db.any (fun r => r.thread_id = tid) then
    db.map (fun r => if r.thread_id = tid then ⟨tid, title, now⟩ else r)
  else
    db ++ [⟨tid, title, now⟩]

/-- `get_thread_summary`: title of the row with this thread id, if any. -/
def get_thread_summary (db : SummaryDB) (tid : String) : Option String :=
  (db.find? (fun r => r.thread_id = tid)).map SummaryRow.title

/-- `updated_at` of the row with this thread id, if any. -/
def get_thread_updated_at (db : SummaryDB) (tid : String) : Option String :=
  (db.find? (fun r => r.thread_id = tid)).map SummaryRow.updated_at

/-! ### Streamlit session state and `add_thread` -/

/-- The parts of `st.session_state` the claims are about: the `chat_threads`
list and the `thread_summaries` dict (an insertion-ordered association
list, as Python dicts are). -/
structure SessionState where
  chat_threads : List String
  thread_summaries : List (String × String)
  deriving DecidableEq, Repr

/-- Python dict key-membership test. -/
def dictHasKey (d : List (String × String)) (k : String) : Bool :=
  d.any (fun p => p.1 = k)

/-- Python dict assignment `d[k] = v`: overwrite in place when the key
exists, otherwise append the new binding. -/
def dictSet (d : List (String × String)) (k v : String) : List (String × String) :=
  if dictHasKey d k then d.map (fun p => if p.1 = k then (k, v) else p)
  else d ++ [(k, v)]

/-- Python dict lookup `d.get(k)`. -/
def dictGet (d : List (String × String)) (k : String) : Option String :=
  (d.find? (fun p => p.1 = k)).map Prod.snd

/-- `add_thread` (`streamlit_frontend_database.py` lines 21-26): append the
id to `chat_threads` when absent; install the placeholder title in
`thread_summaries` when the key is absent. -/
def add_thread (st : SessionState) (tid : String) : SessionState :=
  let threads := if tid ∈ st.chat_threads then st.chat_threads
                 else st.chat_threads ++ [tid]
  let summaries := if dictHasKey st.thread_summaries tid then st.thread_summaries
                   else st.thread_summaries ++ [(tid, "New Conversation")]
  ⟨threads, summaries⟩

/-! ### Agent graph engine

Modelled from the spec: the graph wiring (`langgraph_database_backend.py`
lines 53-62: START → chat_node, chat_node → tools when the response
requests tool calls and → END otherwise, tools → chat_node) is in the
source, but the execution engine that runs the compiled graph — and its
recursion limit — is library code not part of this repository.  Following
the spec's Respond/InvokeTool state machine with a configured hard cap on
rounds, failing deterministically with a cycle-limit error when exceeded. -/

/-- A model response: final text plus the names of the requested tool
calls (empty when the model answers directly). -/
structure AgentResp where
  content : String
  tool_calls : List String
  deriving DecidableEq, Repr

/-- Result of running one turn through the graph. -/
inductive RunResult : Type
  | done (msgs : List Msg)
  | cycleLimitExceeded (msgs : List Msg)
  deriving DecidableEq, Repr

/-- Modelled from the spec: run the Respond/InvokeTool loop.  Each round
invokes the model on the full history and appends its `AIMessage`; with no
requested tool calls the turn is done (`tools_condition` routes to END),
otherwise every requested tool runs in order, appending a `ToolMessage`
each, and the loop re-enters Respond.  `limit` is the configured maximum
number of rounds; exhausting it fails the turn with the cycle-limit
error. -/
def runGraph (model : List Msg → AgentResp) (toolExec : String → String) :
    Nat → List Msg → RunResult
  | 0, msgs => .cycleLimitExceeded msgs
  | limit + 1, msgs =>
      let r := model msgs
      let withAI := msgs ++ [Msg.ai r.content r.tool_calls]
      if r.tool_calls = [] then .done withAI
      else runGraph model toolExec limit
        (withAI ++ r.tool_calls.map (fun tn => Msg.tool tn (toolExec tn)))

/-! ### Thread-select display reconstruction

The loop at `streamlit_frontend_database.py` lines 147-172: walk the
checkpointed messages, emitting a user entry per `HumanMessage`, buffering
tool names of `ToolMessage`s, and attaching the buffered names to the next
`AIMessage`'s assistant entry; afterwards, buffered names left over are
appended to the last entry's tools when that entry is an assistant one. -/

/-- One entry of the display-oriented `message_history` list. -/
inductive Entry : Type
  | user (content : String)
  | assistant (content : String) (tools : List String)
  deriving DecidableEq, Repr

def Entry.isAssistant : Entry → Bool
  | .assistant _ _ => true
  | _ => false

/-- `tools` metadata of an entry (empty for user entries). -/
def entryTools : Entry → List String
  | .user _ => []
  | .assistant _ tl => tl

/-- The for-loop over the loaded messages: builds the entry list and
returns it with the tool names still pending at the end. -/
def buildDisplay : List Msg → List String → List Entry × List String
  | [], pending => ([], pending)
  | .human c :: rest, pending =>
      let r := buildDisplay rest pending
      (.user c :: r.1, r.2)
  | .tool n _ :: rest, pending => buildDisplay rest (pending ++ [n])
  | .ai c _ :: rest, pending =>
      let r := buildDisplay rest []
      (.assistant c pending :: r.1, r.2)

/-- Whether the last display entry is an assistant entry
(`temp_messages[-1]["role"] == "assistant"`, false on an empty list). -/
def lastAssistantB (es : List Entry) : Bool :=
  match es.getLast? with
  | some e => e.isAssistant
  | none => false

/-- Extend the tools of the last entry, when it is an assistant entry
(`temp_messages[-1].setdefault("tools", []).extend(pending_tools)`). -/
def attachToLast (p : List String) : List Entry → List Entry
  | [] => []
  | [e] => match e with
      | .assistant c tl => [.assistant c (tl ++ p)]
      | e => [e]
  | e :: rest => e :: attachToLast p rest

/-- The whole thread-select reconstruction: run the loop, then attach the
leftover pending tool names to the last entry if the list is non-empty and
ends with an assistant entry (otherwise the leftovers are discarded). -/
def reconstruct (msgs : List Msg) : List Entry :=
  let r := buildDisplay msgs []
  if r.2 ≠ [] ∧ lastAssistantB r.1 = true then attachToLast r.2 r.1 else r.1

/-- Names of all tool results in a message sequence, in order. -/
def toolNamesOf (msgs : List Msg) : List String :=
  msgs.filterMap Msg.toolName

/-- Names of the tool results occurring after the last `AIMessage` (all of
them when there is no `AIMessage`): the "trailing" tool results. -/
def trailTools : List Msg → List String
  | [] => []
  | m :: rest =>
      if rest.any Msg.isAI then trailTools rest
      else if m.isAI then toolNamesOf rest
      else (Msg.toolName m).toList ++ trailTools rest

/-- Attach tool names to the first assistant entry of the display list, in
front of its existing tools; with no assistant entry they are dropped. -/
def attachToFirstAssistant (p : List String) : List Entry → List Entry
  | [] => []
  | .assistant c tl :: rest => .assistant c (p ++ tl) :: rest
  | e :: rest => e :: attachToFirstAssistant p rest

/-- The display list as the amended claim words it: each user message is a
user entry; each agent message is an assistant entry; each tool result is
attached as metadata to the assistant entry of the next agent message. -/
def displaySpecCore : List Msg → List Entry
  | [] => []
  | .human c :: rest => .user c :: displaySpecCore rest
  | .ai c _ :: rest => .assistant c [] :: displaySpecCore rest
  | .tool n _ :: rest => attachToFirstAssistant [n] (displaySpecCore rest)

/-- The amended attachment policy: tool results followed by an agent
message attach to that message's entry; trailing ones attach to the last
entry when it is an assistant entry, and are dropped otherwise. -/
def displaySpec (msgs : List Msg) : List Entry :=
  let es := displaySpecCore msgs
  if trailTools msgs ≠ [] ∧ lastAssistantB es = true
  then attachToLast (trailTools msgs) es else es

/-- Concatenation of the tools metadata over a display list, in order. -/
def flatTools (es : List Entry) : List String :=
  (es.map entryTools).flatten

/-! ### Python string and regex primitives

The character-level operations of `_to_title_case`, `_heuristic_title` and
`generate_summary` (`streamlit_frontend_database.py` lines 43-105), over
`List Char`.  The `\\w` and `\\s` classes and the case maps of
`str.title()` are modelled over ASCII (`re` word characters beyond ASCII
and non-ASCII case mappings are out of the model); the non-ASCII quote,
bullet and sentence-terminator characters named explicitly in the source
regexes are carried at their exact code points. -/

/-- Python regex `\\w` (ASCII): letters, digits, underscore. -/
def isWordChar (c : Char) : Bool :=
  c.isAlphanum || c = '_'

/-- A character of a `\\w+[\\w-]*` token: word character or hyphen. -/
def isTokChar (c : Char) : Bool :=
  isWordChar c || c = '-'

/-- Python regex `\\s` and `str.strip` whitespace: space, tab, newline,
carriage return, vertical tab, form feed. -/
def isSpaceChar (c : Char) : Bool :=
  c = ' ' || c = '\t' || c = '\n' || c = '\r' || c = '\x0b' || c = '\x0c'

/-- A cased character in the sense of `str.title()` (ASCII letters). -/
def isCasedChar (c : Char) : Bool :=
  c.isLower || c.isUpper

/-- ASCII uppercase map (`str.upper` on one character). -/
def toUpperCh (c : Char) : Char :=
  if c = 'a' then 'A' else
  if c = 'b' then 'B' else
  if c = 'c' then 'C' else
  if c = 'd' then 'D' else
  if c = 'e' then 'E' else
  if c = 'f' then 'F' else
  if c = 'g' then 'G' else
  if c = 'h' then 'H' else
  if c = 'i' then 'I' else
  if c = 'j' then 'J' else
  if c = 'k' then 'K' else
  if c = 'l' then 'L' else
  if c = 'm' then 'M' else
  if c = 'n' then 'N' else
  if c = 'o' then 'O' else
  if c = 'p' then 'P' else
  if c = 'q' then 'Q' else
  if c = 'r' then 'R' else
  if c = 's' then 'S' else
  if c = 't' then 'T' else
  if c = 'u' then 'U' else
  if c = 'v' then 'V' else
  if c = 'w' then 'W' else
  if c = 'x' then 'X' else
  if c = 'y' then 'Y' else
  if c = 'z' then 'Z' else
  c

/-- ASCII lowercase map (`str.lower` on one character). -/
def toLowerCh (c : Char) : Char :=
  if c = 'A' then 'a' else
  if c = 'B' then 'b' else
  if c = 'C' then 'c' else
  if c = 'D' then 'd' else
  if c = 'E' then 'e' else
  if c = 'F' then 'f' else
  if c = 'G' then 'g' else
  if c = 'H' then 'h' else
  if c = 'I' then 'i' else
  if c = 'J' then 'j' else
  if c = 'K' then 'k' else
  if c = 'L' then 'l' else
  if c = 'M' then 'm' else
  if c = 'N' then 'n' else
  if c = 'O' then 'o' else
  if c = 'P' then 'p' else
  if c = 'Q' then 'q' else
  if c = 'R' then 'r' else
  if c = 'S' then 's' else
  if c = 'T' then 't' else
  if c = 'U' then 'u' else
  if c = 'V' then 'v' else
  if c = 'W' then 'w' else
  if c = 'X' then 'x' else
  if c = 'Y' then 'y' else
  if c = 'Z' then 'z' else
  c

/-- `str.title()`: uppercase a cased character after an uncased one,
lowercase a cased character after a cased one; `prev` says whether the
previous character was cased. -/
def pyTitleAux : Bool → List Char → List Char
  | _, [] => []
  | prev, c :: cs =>
      (if isCasedChar c then (if prev then toLowerCh c else toUpperCh c) else c)
        :: pyTitleAux (isCasedChar c) cs

/-- `re.sub(r"\\s+", " ", s)`: each maximal whitespace run becomes one
space (emitted at the run's last character). -/
def collapseWs : List Char → List Char
  | [] => []
  | c :: cs =>
      if isSpaceChar c then
        match cs with
        | [] => [' ']
        | c' :: _ => if isSpaceChar c' then collapseWs cs else ' ' :: collapseWs cs
      else c :: collapseWs cs

/-- `str.strip()`: drop whitespace from both ends. -/
def pyStripList (cs : List Char) : List Char :=
  ((cs.dropWhile isSpaceChar).reverse.dropWhile isSpaceChar).reverse

/-- `_to_title_case`: `re.sub(r"\\s+", " ", s).strip().title()`. -/
def to_title_case (cs : List Char) : List Char :=
  pyTitleAux false (pyStripList (collapseWs cs))

/-- `" ".join(words)`. -/
def joinSep : List (List Char) → List Char
  | [] => []
  | [t] => t
  | t :: ts => t ++ ' ' :: joinSep ts

/-- Recursion core of `findTokens`, with a fuel argument bounding the
number of characters consumed so the recursion is structural (the fuel is
always instantiated at the input's length, which suffices). -/
def findTokensAux : Nat → List Char → List (List Char)
  | 0, _ => []
  | _ + 1, [] => []
  | n + 1, c :: cs =>
      if isWordChar c then
        (c :: cs.takeWhile isTokChar) :: findTokensAux n (cs.dropWhile isTokChar)
      else
        findTokensAux n cs

/-- `re.findall(r"\\w+[\\w-]*", s)`: scan for the next word character;
the token is that character followed greedily by word characters and
hyphens; continue after it. -/
def findTokens (cs : List Char) : List (List Char) :=
  findTokensAux cs.length cs

/-- The characters removed by `re.sub(r'["\u201c\u201d\x27\x60]+', "", title)`:
double quote, left/right curly double quotes, apostrophe, backtick. -/
def quoteChars : List Char :=
  ['"', Char.ofNat 8220, Char.ofNat 8221, Char.ofNat 39, Char.ofNat 96]

/-- The characters removed by `re.sub(r"[\u2022\u2022]+", "", title)`: the
bullet (written twice in the source class). -/
def bulletChars : List Char :=
  [Char.ofNat 8226]

/-- The trailing characters removed by
`re.sub(r"[\.\!\?\u060c\u060c\u061b\uff0c\u3002]+$", "", title)`: period,
exclamation and question marks, Arabic comma (twice in the source class),
Arabic semicolon, fullwidth comma, ideographic full stop. -/
def trailPunctChars : List Char :=
  ['.', '!', '?', Char.ofNat 1548, Char.ofNat 1563, Char.ofNat 65292,
    Char.ofNat 12290]

/-- `re.sub("[class]+", "", s)`: delete every character of the class. -/
def removeChars (bad : List Char) (cs : List Char) : List Char :=
  cs.filter (fun c => !(bad.contains c))

/-- `re.sub("[class]+$", "", s)`: delete the maximal trailing run of
characters of the class. -/
def stripTrailing (bad : List Char) (cs : List Char) : List Char :=
  (cs.reverse.dropWhile (fun c => bad.contains c)).reverse

/-- The sanitization pipeline of `generate_summary` applied to the model
response text: strip, remove quote characters, remove bullet characters,
strip trailing punctuation, clamp to the first 8 word tokens, re-apply
Title Case. -/
def sanitizeTitle (content : String) : String :=
  let t0 := pyStripList content.data
  let t1 := removeChars quoteChars t0
  let t2 := removeChars bulletChars t1
  let t3 := stripTrailing trailPunctChars t2
  let ws := (findTokens t3).take 8
  ⟨to_title_case (joinSep ws)⟩

/-- Content of the first `HumanMessage`, if any (the `_heuristic_title`
scan loop breaks at the first hit). -/
def firstHumanContent : List Msg → Option String
  | [] => none
  | .human c :: _ => some c
  | .ai _ _ :: rest => firstHumanContent rest
  | .tool _ _ :: rest => firstHumanContent rest

/-- `_heuristic_title`: first user message stripped; empty (or absent)
gives the placeholder; otherwise Title Case of its first 8 word tokens,
falling back to the placeholder when that is empty. -/
def heuristic_title (msgs : List Msg) : String :=
  let first_user : List Char :=
    match firstHumanContent msgs with
    | some c => pyStripList c.data
    | none => []
  if first_user = [] then "New Conversation"
  else
    let words := (findTokens first_user).take 8
    let t : String := ⟨to_title_case (joinSep words)⟩
    if t = "" then "New Conversation" else t

/-- `generate_summary`.  `modelResp` is the stripped-of-nothing content of
`llm.invoke(prompt)` — `some` the returned text, `none` when the call
raises — abstracting the model call; the prompt excerpt built from the
first 4 messages (lines 68-91) only feeds that call and does not affect
the returned title otherwise.  An empty history short-circuits to the
placeholder; a failure or an empty sanitized title falls back to
`_heuristic_title`. -/
def generate_summary (modelResp : Option String) (messages : List Msg) : String :=
  if messages = [] then "New Conversation"
  else
    match modelResp with
    | none => heuristic_title messages
    | some content =>
        let title := sanitizeTitle content
        if title = "" then heuristic_title messages else title

/-- A well-formed regex token: non-empty, starts with a word character,
all characters word characters or hyphens. -/
def goodTokB (t : List Char) : Bool :=
  match t with
  | [] => false
  | c :: _ => isWordChar c && t.all isTokChar

/-- The one-time title persistence block after a completed turn
(`streamlit_frontend_database.py` lines 270-279): read the stored title;
when it is absent, empty, or the placeholder, and the backend history is
non-empty, generate a title, upsert it into the summary table and the
session dict.  Returns the new table, the new session dict, and whether
the generator was invoked. -/
def titleStep (db : SummaryDB) (sess : List (String × String)) (tid : String)
    (backendMsgs : List Msg) (modelResp : Option String) (now : String) :
    SummaryDB × List (String × String) × Bool :=
  let regen := match get_thread_summary db tid with
    | none => true
    | some t => t = "" || t = "New Conversation"
  if regen then
    if backendMsgs ≠ [] then
      let title := generate_summary modelResp backendMsgs
      (save_thread_summary db tid title now, dictSet sess tid title, true)
    else (db, sess, false)
  else (db, sess, false)

end Chatbot

namespace Chatbot

/-! ### Theorems: checkpoint store -/

/-- A single turn's append, seen through `getLatest`. -/
theorem getLatest_appendCheckpoint (store : CheckpointStore) (tid : String)
    (ms : List Msg) : getLatest (appendCheckpoint store tid ms) tid =
      getLatest store tid ++ ms := by
  unfold appendCheckpoint getLatest
  simp [List.reverse_append, List.find?]

/-- C1: The checkpointed state after appending a turn's new messages equals
the prior state with exactly those messages concatenated at the end, in
submission order; over any sequence of turns the final state is the initial
state followed by the concatenation of all the turns' messages — the merge
never reorders, never deduplicates, never replaces. -/
theorem checkpoint_append_only (store : CheckpointStore) (tid : String) :
    (∀ ms : List Msg, getLatest (appendCheckpoint store tid ms) tid =
        getLatest store tid ++ ms) ∧
    (∀ turns : List (List Msg),
        getLatest (turns.foldl (fun s t => appendCheckpoint s tid t) store) tid =
          getLatest store tid ++ turns.flatten) := by
  refine ⟨fun ms => getLatest_appendCheckpoint store tid ms, fun turns => ?_⟩
  induction turns generalizing store with
  | nil => simp
  | cons t ts ih =>
      simp only [List.foldl_cons, List.flatten_cons]
      rw [ih, getLatest_appendCheckpoint, List.append_assoc]

/-- C8: a thread id never written reads back as the empty sequence and is
absent from the thread enumeration; the empty store enumerates no threads;
the enumeration never repeats an id. -/
theorem fresh_thread_empty (store : CheckpointStore) (tid : String)
    (h : ∀ cp ∈ store, cp.1 ≠ tid) :
    load_conversation store tid = [] ∧
    tid ∉ retrieve_all_threads store ∧
    retrieve_all_threads ([] : CheckpointStore) = [] ∧
    (retrieve_all_threads store).Nodup := by
  refine ⟨?_, ?_, rfl, List.nodup_dedup _⟩
  · unfold load_conversation getLatest
    have hfind : store.reverse.find? (fun cp => cp.1 = tid) = none := by
      apply List.find?_eq_none.mpr
      intro cp hcp
      simp only [decide_eq_true_eq]
      exact h cp (List.mem_reverse.mp hcp)
    rw [hfind]
  · unfold retrieve_all_threads
    rw [List.mem_dedup]
    intro hmem
    obtain ⟨cp, hcp, htid⟩ := List.mem_map.mp hmem
    exact h cp hcp htid

/-- Witness for `fresh_thread_empty` at a concrete store and fresh id. -/
theorem fresh_thread_empty_witness :
    load_conversation [("a", [Msg.human "hi"])] "b" = [] ∧
    "b" ∉ retrieve_all_threads [("a", [Msg.human "hi"])] ∧
    retrieve_all_threads ([] : CheckpointStore) = [] ∧
    (retrieve_all_threads [("a", [Msg.human "hi"])]).Nodup :=
  fresh_thread_empty [("a", [Msg.human "hi"])] "b" (by decide)

/-! ### Theorems: summary store -/

/-- Replacing every row keyed `tid` makes the key lookup find the new row,
provided some row carried the key. -/
theorem find?_upsert_replace (tid title now : String) :
    ∀ db : SummaryDB, db.any (fun r => r.thread_id = tid) = true →
      (db.map (fun r => if r.thread_id = tid then (⟨tid, title, now⟩ : SummaryRow)
          else r)).find? (fun r => r.thread_id = tid) =
        some ⟨tid, title, now⟩ := by
  intro db
  induction db with
  | nil => intro h; cases h
  | cons r rs ih =>
      intro h
      by_cases hr : r.thread_id = tid
      · simp [hr]
      · have hrs : rs.any (fun r => r.thread_id = tid) = true := by
          rcases List.any_eq_true.mp h with ⟨r', hr', ht⟩
          rcases List.mem_cons.mp hr' with h1 | h1
          · exact absurd (of_decide_eq_true (h1 ▸ ht)) hr
          · exact List.any_eq_true.mpr ⟨r', h1, ht⟩
        rw [List.map_cons, if_neg hr,
          List.find?_cons_of_neg _ (by simpa using hr)]
        exact ih hrs

/-- Appending a fresh row keyed `tid` makes the key lookup find it,
provided no prior row carried the key. -/
theorem find?_upsert_insert (tid title now : String) :
    ∀ db : SummaryDB, ¬ db.any (fun r => r.thread_id = tid) = true →
      (db ++ [(⟨tid, title, now⟩ : SummaryRow)]).find?
        (fun r => r.thread_id = tid) = some ⟨tid, title, now⟩ := by
  intro db
  induction db with
  | nil => intro _; simp
  | cons r rs ih =>
      intro h
      have hr : ¬ (r.thread_id = tid) := by
        intro he
        exact h (List.any_eq_true.mpr ⟨r, List.mem_cons_self r rs, decide_eq_true he⟩)
      have hrs : ¬ rs.any (fun r => r.thread_id = tid) = true := by
        intro he
        obtain ⟨r', hr', h't⟩ := List.any_eq_true.mp he
        exact h (List.any_eq_true.mpr ⟨r', List.mem_cons_of_mem _ hr', h't⟩)
      rw [List.cons_append, List.find?_cons_of_neg _ (by simpa using hr)]
      exact ih hrs

/-- C9: after `save_thread_summary`, `get_thread_summary` returns exactly
the written title and the stored timestamp is the write time, whether or
not a row for the thread id existed before. -/
theorem summary_upsert_roundtrip (db : SummaryDB) (tid title now : String) :
    get_thread_summary (save_thread_summary db tid title now) tid = some title ∧
    get_thread_updated_at (save_thread_summary db tid title now) tid = some now := by
  have hfind : (save_thread_summary db tid title now).find?
      (fun r => r.thread_id = tid) = some ⟨tid, title, now⟩ := by
    unfold save_thread_summary
    by_cases hmem : db.any (fun r => r.thread_id = tid)
    · rw [if_pos hmem]
      exact find?_upsert_replace tid title now db hmem
    · rw [if_neg hmem]
      exact find?_upsert_insert tid title now db hmem
  exact ⟨by unfold get_thread_summary; rw [hfind]; rfl,
         by unfold get_thread_updated_at; rw [hfind]; rfl⟩

/-! ### Theorems: `add_thread` -/

/-- C10: `add_thread` on an id already present in the session state changes
nothing (in particular an existing title is never reset to the
placeholder), and it preserves the no-duplicates property of the thread
list. -/
theorem add_thread_idempotent (st : SessionState) (tid : String)
    (hthreads : tid ∈ st.chat_threads)
    (hsum : dictHasKey st.thread_summaries tid = true) :
    add_thread st tid = st ∧
    (∀ t, dictGet st.thread_summaries tid = some t →
      dictGet (add_thread st tid).thread_summaries tid = some t) ∧
    (∀ st' : SessionState, ∀ id' : String, st'.chat_threads.Nodup →
      (add_thread st' id').chat_threads.Nodup) := by
  refine ⟨?_, ?_, ?_⟩
  · unfold add_thread
    simp [hthreads, hsum]
  · intro t ht
    unfold add_thread
    simp only [hsum, if_pos, if_true]
    cases hmem : decide (tid ∈ st.chat_threads) <;> simp [ht]
  · intro st' id' hnd
    unfold add_thread
    by_cases hmem : id' ∈ st'.chat_threads
    · simpa [hmem] using hnd
    · simp only [hmem, if_neg, not_false_iff]
      exact List.Nodup.append hnd (List.nodup_singleton id')
        (by simpa using fun h => hmem h)

/-! ### Theorems: character-level facts about the case maps -/

theorem toUpperCh_tokChar (c : Char) : isTokChar (toUpperCh c) = isTokChar c := by
  unfold toUpperCh
  by_cases h0 : c = 'a'
  · subst h0; decide
  rw [if_neg h0]
  by_cases h1 : c = 'b'
  · subst h1; decide
  rw [if_neg h1]
  by_cases h2 : c = 'c'
  · subst h2; decide
  rw [if_neg h2]
  by_cases h3 : c = 'd'
  · subst h3; decide
  rw [if_neg h3]
  by_cases h4 : c = 'e'
  · subst h4; decide
  rw [if_neg h4]
  by_cases h5 : c = 'f'
  · subst h5; decide
  rw [if_neg h5]
  by_cases h6 : c = 'g'
  · subst h6; decide
  rw [if_neg h6]
  by_cases h7 : c = 'h'
  · subst h7; decide
  rw [if_neg h7]
  by_cases h8 : c = 'i'
  · subst h8; decide
  rw [if_neg h8]
  by_cases h9 : c = 'j'
  · subst h9; decide
  rw [if_neg h9]
  by_cases h10 : c = 'k'
  · subst h10; decide
  rw [if_neg h10]
  by_cases h11 : c = 'l'
  · subst h11; decide
  rw [if_neg h11]
  by_cases h12 : c = 'm'
  · subst h12; decide
  rw [if_neg h12]
  by_cases h13 : c = 'n'
  · subst h13; decide
  rw [if_neg h13]
  by_cases h14 : c = 'o'
  · subst h14; decide
  rw [if_neg h14]
  by_cases h15 : c = 'p'
  · subst h15; decide
  rw [if_neg h15]
  by_cases h16 : c = 'q'
  · subst h16; decide
  rw [if_neg h16]
  by_cases h17 : c = 'r'
  · subst h17; decide
  rw [if_neg h17]
  by_cases h18 : c = 's'
  · subst h18; decide
  rw [if_neg h18]
  by_cases h19 : c = 't'
  · subst h19; decide
  rw [if_neg h19]
  by_cases h20 : c = 'u'
  · subst h20; decide
  rw [if_neg h20]
  by_cases h21 : c = 'v'
  · subst h21; decide
  rw [if_neg h21]
  by_cases h22 : c = 'w'
  · subst h22; decide
  rw [if_neg h22]
  by_cases h23 : c = 'x'
  · subst h23; decide
  rw [if_neg h23]
  by_cases h24 : c = 'y'
  · subst h24; decide
  rw [if_neg h24]
  by_cases h25 : c = 'z'
  · subst h25; decide
  rw [if_neg h25]
  try rfl

theorem toLowerCh_tokChar (c : Char) : isTokChar (toLowerCh c) = isTokChar c := by
  unfold toLowerCh
  by_cases h0 : c = 'A'
  · subst h0; decide
  rw [if_neg h0]
  by_cases h1 : c = 'B'
  · subst h1; decide
  rw [if_neg h1]
  by_cases h2 : c = 'C'
  · subst h2; decide
  rw [if_neg h2]
  by_cases h3 : c = 'D'
  · subst h3; decide
  rw [if_neg h3]
  by_cases h4 : c = 'E'
  · subst h4; decide
  rw [if_neg h4]
  by_cases h5 : c = 'F'
  · subst h5; decide
  rw [if_neg h5]
  by_cases h6 : c = 'G'
  · subst h6; decide
  rw [if_neg h6]
  by_cases h7 : c = 'H'
  · subst h7; decide
  rw [if_neg h7]
  by_cases h8 : c = 'I'
  · subst h8; decide
  rw [if_neg h8]
  by_cases h9 : c = 'J'
  · subst h9; decide
  rw [if_neg h9]
  by_cases h10 : c = 'K'
  · subst h10; decide
  rw [if_neg h10]
  by_cases h11 : c = 'L'
  · subst h11; decide
  rw [if_neg h11]
  by_cases h12 : c = 'M'
  · subst h12; decide
  rw [if_neg h12]
  by_cases h13 : c = 'N'
  · subst h13; decide
  rw [if_neg h13]
  by_cases h14 : c = 'O'
  · subst h14; decide
  rw [if_neg h14]
  by_cases h15 : c = 'P'
  · subst h15; decide
  rw [if_neg h15]
  by_cases h16 : c = 'Q'
  · subst h16; decide
  rw [if_neg h16]
  by_cases h17 : c = 'R'
  · subst h17; decide
  rw [if_neg h17]
  by_cases h18 : c = 'S'
  · subst h18; decide
  rw [if_neg h18]
  by_cases h19 : c = 'T'
  · subst h19; decide
  rw [if_neg h19]
  by_cases h20 : c = 'U'
  · subst h20; decide
  rw [if_neg h20]
  by_cases h21 : c = 'V'
  · subst h21; decide
  rw [if_neg h21]
  by_cases h22 : c = 'W'
  · subst h22; decide
  rw [if_neg h22]
  by_cases h23 : c = 'X'
  · subst h23; decide
  rw [if_neg h23]
  by_cases h24 : c = 'Y'
  · subst h24; decide
  rw [if_neg h24]
  by_cases h25 : c = 'Z'
  · subst h25; decide
  rw [if_neg h25]
  try rfl

theorem toUpperCh_wordChar (c : Char) : isWordChar (toUpperCh c) = isWordChar c := by
  unfold toUpperCh
  by_cases h0 : c = 'a'
  · subst h0; decide
  rw [if_neg h0]
  by_cases h1 : c = 'b'
  · subst h1; decide
  rw [if_neg h1]
  by_cases h2 : c = 'c'
  · subst h2; decide
  rw [if_neg h2]
  by_cases h3 : c = 'd'
  · subst h3; decide
  rw [if_neg h3]
  by_cases h4 : c = 'e'
  · subst h4; decide
  rw [if_neg h4]
  by_cases h5 : c = 'f'
  · subst h5; decide
  rw [if_neg h5]
  by_cases h6 : c = 'g'
  · subst h6; decide
  rw [if_neg h6]
  by_cases h7 : c = 'h'
  · subst h7; decide
  rw [if_neg h7]
  by_cases h8 : c = 'i'
  · subst h8; decide
  rw [if_neg h8]
  by_cases h9 : c = 'j'
  · subst h9; decide
  rw [if_neg h9]
  by_cases h10 : c = 'k'
  · subst h10; decide
  rw [if_neg h10]
  by_cases h11 : c = 'l'
  · subst h11; decide
  rw [if_neg h11]
  by_cases h12 : c = 'm'
  · subst h12; decide
  rw [if_neg h12]
  by_cases h13 : c = 'n'
  · subst h13; decide
  rw [if_neg h13]
  by_cases h14 : c = 'o'
  · subst h14; decide
  rw [if_neg h14]
  by_cases h15 : c = 'p'
  · subst h15; decide
  rw [if_neg h15]
  by_cases h16 : c = 'q'
  · subst h16; decide
  rw [if_neg h16]
  by_cases h17 : c = 'r'
  · subst h17; decide
  rw [if_neg h17]
  by_cases h18 : c = 's'
  · subst h18; decide
  rw [if_neg h18]
  by_cases h19 : c = 't'
  · subst h19; decide
  rw [if_neg h19]
  by_cases h20 : c = 'u'
  · subst h20; decide
  rw [if_neg h20]
  by_cases h21 : c = 'v'
  · subst h21; decide
  rw [if_neg h21]
  by_cases h22 : c = 'w'
  · subst h22; decide
  rw [if_neg h22]
  by_cases h23 : c = 'x'
  · subst h23; decide
  rw [if_neg h23]
  by_cases h24 : c = 'y'
  · subst h24; decide
  rw [if_neg h24]
  by_cases h25 : c = 'z'
  · subst h25; decide
  rw [if_neg h25]
  try rfl

theorem toLowerCh_wordChar (c : Char) : isWordChar (toLowerCh c) = isWordChar c := by
  unfold toLowerCh
  by_cases h0 : c = 'A'
  · subst h0; decide
  rw [if_neg h0]
  by_cases h1 : c = 'B'
  · subst h1; decide
  rw [if_neg h1]
  by_cases h2 : c = 'C'
  · subst h2; decide
  rw [if_neg h2]
  by_cases h3 : c = 'D'
  · subst h3; decide
  rw [if_neg h3]
  by_cases h4 : c = 'E'
  · subst h4; decide
  rw [if_neg h4]
  by_cases h5 : c = 'F'
  · subst h5; decide
  rw [if_neg h5]
  by_cases h6 : c = 'G'
  · subst h6; decide
  rw [if_neg h6]
  by_cases h7 : c = 'H'
  · subst h7; decide
  rw [if_neg h7]
  by_cases h8 : c = 'I'
  · subst h8; decide
  rw [if_neg h8]
  by_cases h9 : c = 'J'
  · subst h9; decide
  rw [if_neg h9]
  by_cases h10 : c = 'K'
  · subst h10; decide
  rw [if_neg h10]
  by_cases h11 : c = 'L'
  · subst h11; decide
  rw [if_neg h11]
  by_cases h12 : c = 'M'
  · subst h12; decide
  rw [if_neg h12]
  by_cases h13 : c = 'N'
  · subst h13; decide
  rw [if_neg h13]
  by_cases h14 : c = 'O'
  · subst h14; decide
  rw [if_neg h14]
  by_cases h15 : c = 'P'
  · subst h15; decide
  rw [if_neg h15]
  by_cases h16 : c = 'Q'
  · subst h16; decide
  rw [if_neg h16]
  by_cases h17 : c = 'R'
  · subst h17; decide
  rw [if_neg h17]
  by_cases h18 : c = 'S'
  · subst h18; decide
  rw [if_neg h18]
  by_cases h19 : c = 'T'
  · subst h19; decide
  rw [if_neg h19]
  by_cases h20 : c = 'U'
  · subst h20; decide
  rw [if_neg h20]
  by_cases h21 : c = 'V'
  · subst h21; decide
  rw [if_neg h21]
  by_cases h22 : c = 'W'
  · subst h22; decide
  rw [if_neg h22]
  by_cases h23 : c = 'X'
  · subst h23; decide
  rw [if_neg h23]
  by_cases h24 : c = 'Y'
  · subst h24; decide
  rw [if_neg h24]
  by_cases h25 : c = 'Z'
  · subst h25; decide
  rw [if_neg h25]
  try rfl

/-- A token character is none of the six whitespace characters. -/
theorem tokChar_not_space (c : Char) (h : isTokChar c = true) :
    isSpaceChar c = false := by
  cases hsp : isSpaceChar c with
  | false => rfl
  | true =>
      exfalso
      simp only [isSpaceChar, Bool.or_eq_true, decide_eq_true_eq] at hsp
      rcases hsp with ((((rfl | rfl) | rfl) | rfl) | rfl) | rfl <;>
        exact absurd h (by decide)

/-- A token character is not among the removed quote, bullet or trailing
punctuation characters. -/
theorem tokChar_not_removed (c : Char) (h : isTokChar c = true) :
    c ∉ quoteChars ∧ c ∉ bulletChars ∧ c ∉ trailPunctChars := by
  refine ⟨?_, ?_, ?_⟩ <;> intro hmem
  · simp only [quoteChars, List.mem_cons, List.mem_singleton,
      List.not_mem_nil, or_false] at hmem
    rcases hmem with rfl | rfl | rfl | rfl | rfl <;> exact absurd h (by decide)
  · simp only [bulletChars, List.mem_cons, List.mem_singleton,
      List.not_mem_nil, or_false] at hmem
    rcases hmem with rfl <;> exact absurd h (by decide)
  · simp only [trailPunctChars, List.mem_cons, List.mem_singleton,
      List.not_mem_nil, or_false] at hmem
    rcases hmem with rfl | rfl | rfl | rfl | rfl | rfl | rfl <;>
      exact absurd h (by decide)

/-! ### Theorems: tokenization and Title Case -/

/-- The fuel of `findTokensAux` is irrelevant once it covers the input. -/
theorem findTokensAux_stable : ∀ n m (cs : List Char), cs.length ≤ n →
    cs.length ≤ m → findTokensAux n cs = findTokensAux m cs := by
  intro n
  induction n with
  | zero =>
      intro m cs hn _
      rw [List.eq_nil_of_length_eq_zero (Nat.le_zero.mp hn)]
      cases m <;> rfl
  | succ n ih =>
      intro m cs hn hm
      cases cs with
      | nil => cases m <;> rfl
      | cons c cs' =>
          rw [List.length_cons] at hn hm
          obtain ⟨m', rfl⟩ : ∃ m', m = m' + 1 := by
            cases m with
            | zero => exact absurd hm (by simp)
            | succ m' => exact ⟨m', rfl⟩
          have hn' : cs'.length ≤ n := Nat.le_of_succ_le_succ hn
          have hm' : cs'.length ≤ m' := Nat.le_of_succ_le_succ hm
          show (if isWordChar c then _ else findTokensAux n cs') =
            (if isWordChar c then _ else findTokensAux m' cs')
          by_cases hw : isWordChar c = true
          · rw [if_pos hw, if_pos hw]
            have hd : (cs'.dropWhile isTokChar).length ≤ cs'.length :=
              (List.dropWhile_sublist _).length_le
            rw [ih m' (cs'.dropWhile isTokChar) (le_trans hd hn') (le_trans hd hm')]
          · rw [if_neg hw, if_neg hw, ih m' cs' hn' hm']

theorem findTokens_nil : findTokens [] = [] := rfl

theorem findTokens_cons_word (c : Char) (cs : List Char) (h : isWordChar c = true) :
    findTokens (c :: cs) =
      (c :: cs.takeWhile isTokChar) :: findTokens (cs.dropWhile isTokChar) := by
  show (if isWordChar c then
      (c :: cs.takeWhile isTokChar) :: findTokensAux cs.length (cs.dropWhile isTokChar)
    else findTokensAux cs.length cs) = _
  rw [if_pos h, findTokensAux_stable cs.length (cs.dropWhile isTokChar).length
    (cs.dropWhile isTokChar) ((List.dropWhile_sublist _).length_le) le_rfl]
  rfl

theorem findTokens_cons_nonword (c : Char) (cs : List Char)
    (h : isWordChar c = false) : findTokens (c :: cs) = findTokens cs := by
  show (if isWordChar c then
      (c :: cs.takeWhile isTokChar) :: findTokensAux cs.length (cs.dropWhile isTokChar)
    else findTokensAux cs.length cs) = _
  rw [if_neg (by simp [h])]
  rfl

theorem goodTokB_cons (c : Char) (l : List Char) :
    goodTokB (c :: l) = (isWordChar c && (c :: l).all isTokChar) := rfl

theorem findTokens_good_aux :
    ∀ n, ∀ cs : List Char, cs.length ≤ n →
      ∀ t ∈ findTokens cs, goodTokB t = true := by
  intro n
  induction n with
  | zero =>
      intro cs hlen t ht
      rw [List.eq_nil_of_length_eq_zero (Nat.le_zero.mp hlen), findTokens_nil] at ht
      cases ht
  | succ n ih =>
      intro cs hlen t ht
      cases cs with
      | nil => rw [findTokens_nil] at ht; cases ht
      | cons c cs' =>
          rw [List.length_cons] at hlen
          have hlen' : cs'.length ≤ n := Nat.le_of_succ_le_succ hlen
          by_cases hw : isWordChar c = true
          · rw [findTokens_cons_word c cs' hw] at ht
            rcases List.mem_cons.mp ht with rfl | ht'
            · rw [goodTokB_cons, Bool.and_eq_true]
              refine ⟨hw, ?_⟩
              rw [List.all_cons, Bool.and_eq_true]
              refine ⟨by simp [isTokChar, hw], ?_⟩
              rw [List.all_eq_true]
              exact fun x hx => List.mem_takeWhile_imp hx
            · exact ih (cs'.dropWhile isTokChar)
                (le_trans ((List.dropWhile_sublist _).length_le) hlen') t ht'
          · rw [findTokens_cons_nonword c cs' (by simpa using hw)] at ht
            exact ih cs' hlen' t ht

/-- Every token produced by `findTokens` is well formed. -/
theorem findTokens_good (cs : List Char) :
    ∀ t ∈ findTokens cs, goodTokB t = true :=
  findTokens_good_aux cs.length cs le_rfl

theorem pyTitleAux_length : ∀ (flag : Bool) (cs : List Char),
    (pyTitleAux flag cs).length = cs.length := by
  intro flag cs
  induction cs generalizing flag with
  | nil => rfl
  | cons c cs' ih => simp [pyTitleAux, ih]

/-- The title map sends the characters before a space unchanged in
position and restarts (uncased) after the space. -/
theorem pyTitleAux_space_append : ∀ (t : List Char) (flag : Bool)
    (rest : List Char), pyTitleAux flag (t ++ ' ' :: rest) =
      pyTitleAux flag t ++ ' ' :: pyTitleAux false rest := by
  intro t
  induction t with
  | nil =>
      intro flag rest
      show pyTitleAux flag (' ' :: rest) = ' ' :: pyTitleAux false rest
      rw [pyTitleAux, show isCasedChar ' ' = false by decide]
      simp
  | cons c t' ih =>
      intro flag rest
      show pyTitleAux flag (c :: (t' ++ ' ' :: rest)) = _
      rw [pyTitleAux, ih, pyTitleAux]
      simp

/-- `str.title()` distributes over a space-joined token list. -/
theorem pyTitle_joinSep : ∀ ts : List (List Char),
    pyTitleAux false (joinSep ts) = joinSep (ts.map (pyTitleAux false)) := by
  intro ts
  match ts with
  | [] => rfl
  | [t] => rfl
  | t :: t' :: ts' =>
      show pyTitleAux false (t ++ ' ' :: joinSep (t' :: ts')) = _
      rw [pyTitleAux_space_append, pyTitle_joinSep (t' :: ts')]
      rfl

theorem pyTitleAux_all_tokChar : ∀ (flag : Bool) (cs : List Char),
    (∀ c ∈ cs, isTokChar c = true) → ∀ c ∈ pyTitleAux flag cs, isTokChar c = true := by
  intro flag cs
  induction cs generalizing flag with
  | nil => intro _ c hc; cases hc
  | cons c0 cs' ih =>
      intro hall c hc
      rw [pyTitleAux] at hc
      rcases List.mem_cons.mp hc with rfl | hc'
      · have h0 : isTokChar c0 = true := hall c0 (List.mem_cons_self _ _)
        by_cases hcase : isCasedChar c0 = true
        · rw [if_pos hcase]
          cases hflag : flag
          · rw [if_neg (by simp), toUpperCh_tokChar]; exact h0
          · rw [if_pos rfl, toLowerCh_tokChar]; exact h0
        · rw [if_neg hcase]; exact h0
      · exact ih _ (fun x hx => hall x (List.mem_cons_of_mem _ hx)) c hc'

/-- The title map preserves token well-formedness. -/
theorem pyTitleTok_good (t : List Char) (h : goodTokB t = true) :
    goodTokB (pyTitleAux false t) = true := by
  cases t with
  | nil => cases h
  | cons c cs =>
      rw [goodTokB_cons, Bool.and_eq_true] at h
      rw [pyTitleAux]
      have hw := h.1
      have hall : ∀ x ∈ c :: cs, isTokChar x = true := List.all_eq_true.mp h.2
      rw [goodTokB_cons, Bool.and_eq_true]
      constructor
      · by_cases hcase : isCasedChar c = true
        · rw [if_pos hcase, if_neg (by simp), toUpperCh_wordChar]; exact hw
        · rw [if_neg hcase]; exact hw
      · rw [List.all_eq_true]
        intro x hx
        have : x ∈ pyTitleAux false (c :: cs) := by rw [pyTitleAux]; exact hx
        exact pyTitleAux_all_tokChar false (c :: cs) hall x this

/-! ### Theorems: shape of space-joined token lists -/

theorem joinSep_cons_cons (t t' : List Char) (ts : List (List Char)) :
    joinSep (t :: t' :: ts) = t ++ ' ' :: joinSep (t' :: ts) := rfl

/-- A join headed by a non-empty token starts with that token's head. -/
theorem joinSep_cons_exists (c : Char) (tcs : List Char) (ts : List (List Char)) :
    ∃ X, joinSep ((c :: tcs) :: ts) = c :: X := by
  cases ts with
  | nil => exact ⟨tcs, rfl⟩
  | cons t' ts' => exact ⟨tcs ++ ' ' :: joinSep (t' :: ts'), rfl⟩

theorem goodTokB_parts {t : List Char} (h : goodTokB t = true) :
    ∃ c cs, t = c :: cs ∧ isWordChar c = true ∧ ∀ x ∈ t, isTokChar x = true := by
  cases t with
  | nil => cases h
  | cons c cs =>
      rw [goodTokB_cons, Bool.and_eq_true] at h
      exact ⟨c, cs, rfl, h.1, List.all_eq_true.mp h.2⟩

theorem collapseWs_nil : collapseWs [] = [] := rfl

theorem collapseWs_cons_nonspace (c : Char) (cs : List Char)
    (h : isSpaceChar c = false) : collapseWs (c :: cs) = c :: collapseWs cs := by
  show (if isSpaceChar c = true then _ else c :: collapseWs cs) = c :: collapseWs cs
  rw [if_neg (by simp [h])]

theorem collapseWs_space_cons_nonspace (c' : Char) (cs : List Char)
    (h : isSpaceChar c' = false) :
    collapseWs (' ' :: c' :: cs) = ' ' :: collapseWs (c' :: cs) := by
  show (if isSpaceChar ' ' = true then
          (if isSpaceChar c' = true then collapseWs (c' :: cs)
           else ' ' :: collapseWs (c' :: cs))
        else ' ' :: collapseWs (c' :: cs)) = ' ' :: collapseWs (c' :: cs)
  rw [if_pos (show isSpaceChar ' ' = true by decide), if_neg (by simp [h])]

theorem collapseWs_append_nospace : ∀ xs : List Char,
    (∀ c ∈ xs, isSpaceChar c = false) →
    ∀ rest, collapseWs (xs ++ rest) = xs ++ collapseWs rest := by
  intro xs
  induction xs with
  | nil => intro _ rest; rfl
  | cons c xs' ih =>
      intro h rest
      rw [List.cons_append,
        collapseWs_cons_nonspace c _ (h c (List.mem_cons_self _ _)),
        ih (fun x hx => h x (List.mem_cons_of_mem _ hx)) rest]
      rfl

/-- Collapsing whitespace leaves a join of well-formed tokens unchanged. -/
theorem collapseWs_joinSep : ∀ ts : List (List Char),
    (∀ t ∈ ts, goodTokB t = true) → collapseWs (joinSep ts) = joinSep ts := by
  intro ts
  match ts with
  | [] => intro _; rfl
  | [t] =>
      intro h
      obtain ⟨c, cs, rfl, _, hall⟩ := goodTokB_parts (h t (List.mem_cons_self _ _))
      have hns : ∀ x ∈ c :: cs, isSpaceChar x = false :=
        fun x hx => tokChar_not_space x (hall x hx)
      have := collapseWs_append_nospace (c :: cs) hns []
      simpa [collapseWs_nil] using this
  | t :: t' :: ts' =>
      intro h
      have ht := h t (List.mem_cons_self _ _)
      have h' : ∀ u ∈ t' :: ts', goodTokB u = true :=
        fun u hu => h u (List.mem_cons_of_mem _ hu)
      obtain ⟨c, cs, rfl, _, hall⟩ := goodTokB_parts ht
      have hns : ∀ x ∈ c :: cs, isSpaceChar x = false :=
        fun x hx => tokChar_not_space x (hall x hx)
      obtain ⟨c', cs', heq', hw', hall'⟩ :=
        goodTokB_parts (h' t' (List.mem_cons_self _ _))
      obtain ⟨X, hX⟩ := heq' ▸ joinSep_cons_exists c' cs' ts'
      rw [joinSep_cons_cons, collapseWs_append_nospace _ hns, hX,
        collapseWs_space_cons_nonspace c' X
          (tokChar_not_space c' (hall' c' (heq' ▸ List.mem_cons_self _ _))),
        ← hX, collapseWs_joinSep (t' :: ts') h']

theorem dropWhile_eq_self_of_head (l : List Char) (p : Char → Bool)
    (h : ∀ c, l.head? = some c → p c = false) : l.dropWhile p = l := by
  cases l with
  | nil => rfl
  | cons c cs => exact List.dropWhile_cons_of_neg (by simp [h c rfl])

theorem exists_head_reverse (l : List Char) (P : Char → Bool) (hne : l ≠ [])
    (h : ∀ c ∈ l, P c = true) :
    ∃ c, l.reverse.head? = some c ∧ P c = true := by
  cases hr : l.reverse with
  | nil => exact absurd (by simpa using congrArg List.reverse hr) hne
  | cons x xs =>
      refine ⟨x, rfl, h x ?_⟩
      rw [← List.mem_reverse, hr]
      exact List.mem_cons_self _ _

/-- The last character of a join of well-formed tokens is a token
character. -/
theorem joinSep_reverse_head : ∀ ts : List (List Char),
    (∀ t ∈ ts, goodTokB t = true) → ts ≠ [] →
    ∃ c, (joinSep ts).reverse.head? = some c ∧ isTokChar c = true := by
  intro ts
  match ts with
  | [] => intro _ hne; exact absurd rfl hne
  | [t] =>
      intro h _
      obtain ⟨c, cs, rfl, _, hall⟩ := goodTokB_parts (h t (List.mem_cons_self _ _))
      exact exists_head_reverse (c :: cs) isTokChar (by simp) hall
  | t :: t' :: ts' =>
      intro h _
      have h' : ∀ u ∈ t' :: ts', goodTokB u = true :=
        fun u hu => h u (List.mem_cons_of_mem _ hu)
      obtain ⟨c, hc, hP⟩ := joinSep_reverse_head (t' :: ts') h' (by simp)
      refine ⟨c, ?_, hP⟩
      rw [joinSep_cons_cons, List.reverse_append]
      obtain ⟨x, xs, hxs⟩ : ∃ x xs, (joinSep (t' :: ts')).reverse = x :: xs := by
        cases hr : (joinSep (t' :: ts')).reverse with
        | nil => rw [hr] at hc; cases hc
        | cons x xs => exact ⟨x, xs, rfl⟩
      rw [hxs] at hc
      rw [show (' ' :: joinSep (t' :: ts')).reverse =
        (joinSep (t' :: ts')).reverse ++ [' '] from List.reverse_cons _ _, hxs]
      simpa using hc

/-- Stripping leaves a non-empty join of well-formed tokens unchanged. -/
theorem pyStrip_joinSep (ts : List (List Char))
    (h : ∀ t ∈ ts, goodTokB t = true) (hne : ts ≠ []) :
    pyStripList (joinSep ts) = joinSep ts := by
  obtain ⟨t, ts', rfl⟩ : ∃ t ts', ts = t :: ts' := by
    cases ts with
    | nil => exact absurd rfl hne
    | cons t ts' => exact ⟨t, ts', rfl⟩
  obtain ⟨c, cs, rfl, hw, hall⟩ := goodTokB_parts (h _ (List.mem_cons_self _ _))
  obtain ⟨X, hX⟩ := joinSep_cons_exists c cs ts'
  have hd1 : (joinSep ((c :: cs) :: ts')).dropWhile isSpaceChar =
      joinSep ((c :: cs) :: ts') := by
    apply dropWhile_eq_self_of_head
    intro d hd
    rw [hX, List.head?_cons] at hd
    cases hd
    exact tokChar_not_space c (by simp [isTokChar, hw])
  obtain ⟨d, hd, hdP⟩ := joinSep_reverse_head ((c :: cs) :: ts') h (by simp)
  have hd2 : (joinSep ((c :: cs) :: ts')).reverse.dropWhile isSpaceChar =
      (joinSep ((c :: cs) :: ts')).reverse := by
    apply dropWhile_eq_self_of_head
    intro e he
    rw [hd] at he
    cases he
    exact tokChar_not_space d hdP
  unfold pyStripList
  rw [hd1, hd2, List.reverse_reverse]

/-- On a join of well-formed tokens, `_to_title_case` is just the title
map. -/
theorem to_title_case_joinSep (ts : List (List Char))
    (h : ∀ t ∈ ts, goodTokB t = true) :
    to_title_case (joinSep ts) = pyTitleAux false (joinSep ts) := by
  cases ts with
  | nil => rfl
  | cons t ts' =>
      unfold to_title_case
      rw [collapseWs_joinSep _ h, pyStrip_joinSep _ h (by simp)]

/-- `findTokens` recovers exactly the tokens from their space-join. -/
theorem findTokens_joinSep : ∀ ts : List (List Char),
    (∀ t ∈ ts, goodTokB t = true) → findTokens (joinSep ts) = ts := by
  intro ts
  match ts with
  | [] => intro _; exact findTokens_nil
  | [t] =>
      intro h
      obtain ⟨c, cs, rfl, hw, hall⟩ := goodTokB_parts (h t (List.mem_cons_self _ _))
      have hcs : ∀ a ∈ cs, isTokChar a = true :=
        fun a ha => hall a (List.mem_cons_of_mem _ ha)
      show findTokens (c :: cs) = [c :: cs]
      rw [findTokens_cons_word c cs hw]
      have htw : cs.takeWhile isTokChar = cs := by
        have h1 := @List.takeWhile_append_of_pos _ isTokChar cs [] hcs
        simpa using h1
      have hdw : cs.dropWhile isTokChar = [] := by
        have h1 := @List.dropWhile_append_of_pos _ isTokChar cs [] hcs
        simpa using h1
      rw [htw, hdw, findTokens_nil]
  | t :: t' :: ts' =>
      intro h
      have h' : ∀ u ∈ t' :: ts', goodTokB u = true :=
        fun u hu => h u (List.mem_cons_of_mem _ hu)
      obtain ⟨c, cs, rfl, hw, hall⟩ := goodTokB_parts (h _ (List.mem_cons_self _ _))
      have hcs : ∀ a ∈ cs, isTokChar a = true :=
        fun a ha => hall a (List.mem_cons_of_mem _ ha)
      rw [joinSep_cons_cons]
      show findTokens (c :: (cs ++ ' ' :: joinSep (t' :: ts'))) = _
      rw [findTokens_cons_word _ _ hw,
        List.takeWhile_append_of_pos hcs,
        List.dropWhile_append_of_pos hcs,
        List.takeWhile_cons_of_neg (by decide),
        List.dropWhile_cons_of_neg (by decide),
        findTokens_cons_nonword ' ' _ (by decide),
        findTokens_joinSep (t' :: ts') h']
      simp

/-- On a join of well-formed tokens, `_to_title_case` distributes into the
per-token title map. -/
theorem titleJoin_eq (ws : List (List Char)) (h : ∀ w ∈ ws, goodTokB w = true) :
    to_title_case (joinSep ws) = joinSep (ws.map (pyTitleAux false)) := by
  rw [to_title_case_joinSep ws h, pyTitle_joinSep]

theorem map_pyTitle_good (ws : List (List Char))
    (h : ∀ w ∈ ws, goodTokB w = true) :
    ∀ w' ∈ ws.map (pyTitleAux false), goodTokB w' = true := by
  intro w' hw'
  obtain ⟨w, hw, rfl⟩ := List.mem_map.mp hw'
  exact pyTitleTok_good w (h w hw)

/-- Tokenizing a title-cased join of well-formed tokens yields exactly the
title-cased tokens. -/
theorem titleJoin_tokens (ws : List (List Char))
    (h : ∀ w ∈ ws, goodTokB w = true) :
    findTokens (to_title_case (joinSep ws)) = ws.map (pyTitleAux false) := by
  rw [titleJoin_eq ws h]
  exact findTokens_joinSep _ (map_pyTitle_good ws h)

theorem joinSep_good_ne_nil (w : List Char) (ws' : List (List Char))
    (hw : goodTokB w = true) : joinSep (w :: ws') ≠ [] := by
  obtain ⟨c, cs, rfl, _, _⟩ := goodTokB_parts hw
  obtain ⟨X, hX⟩ := joinSep_cons_exists c cs ws'
  rw [hX]
  simp

/-- The title-cased join of a non-empty list of well-formed tokens is
non-empty. -/
theorem titleJoin_ne_nil (ws : List (List Char))
    (h : ∀ w ∈ ws, goodTokB w = true) (hne : ws ≠ []) :
    to_title_case (joinSep ws) ≠ [] := by
  obtain ⟨w, ws', rfl⟩ : ∃ w ws', ws = w :: ws' := by
    cases ws with
    | nil => exact absurd rfl hne
    | cons w ws' => exact ⟨w, ws', rfl⟩
  rw [to_title_case_joinSep _ h]
  intro he
  have hlen := pyTitleAux_length false (joinSep (w :: ws'))
  rw [he] at hlen
  exact joinSep_good_ne_nil w ws' (h w (List.mem_cons_self _ _))
    (List.eq_nil_of_length_eq_zero hlen.symm)

/-- Every character of a join of all-token-character tokens is a token
character or the separating space. -/
theorem joinSep_chars : ∀ ts : List (List Char),
    (∀ t ∈ ts, ∀ c ∈ t, isTokChar c = true) →
    ∀ c ∈ joinSep ts, isTokChar c = true ∨ c = ' ' := by
  intro ts
  match ts with
  | [] => intro _ c hc; cases hc
  | [t] => intro h c hc; exact Or.inl (h t (List.mem_cons_self _ _) c hc)
  | t :: t' :: ts' =>
      intro h c hc
      rw [joinSep_cons_cons] at hc
      rcases List.mem_append.mp hc with hc1 | hc2
      · exact Or.inl (h t (List.mem_cons_self _ _) c hc1)
      · rcases List.mem_cons.mp hc2 with rfl | hc3
        · exact Or.inr rfl
        · exact joinSep_chars (t' :: ts')
            (fun u hu => h u (List.mem_cons_of_mem _ hu)) c hc3

/-- `_heuristic_title` never returns the empty string. -/
theorem heuristic_ne_empty (msgs : List Msg) : heuristic_title msgs ≠ "" := by
  unfold heuristic_title
  cases hf : firstHumanContent msgs with
  | none => decide
  | some c =>
      show (if pyStripList c.data = [] then ("New Conversation" : String)
          else _) ≠ ""
      by_cases hfu : pyStripList c.data = []
      · rw [if_pos hfu]; decide
      · rw [if_neg hfu]
        show (if String.mk (to_title_case
            (joinSep ((findTokens (pyStripList c.data)).take 8))) = "" then
            ("New Conversation" : String) else _) ≠ ""
        by_cases ht : String.mk (to_title_case
            (joinSep ((findTokens (pyStripList c.data)).take 8))) = ""
        · rw [if_pos ht]; decide
        · rw [if_neg ht]; exact ht

/-- `generate_summary` never returns the empty string. -/
theorem generate_summary_ne_empty (mr : Option String) (msgs : List Msg) :
    generate_summary mr msgs ≠ "" := by
  unfold generate_summary
  by_cases hm : msgs = []
  · rw [if_pos hm]; decide
  · rw [if_neg hm]
    cases mr with
    | none => exact heuristic_ne_empty msgs
    | some content =>
        show (if sanitizeTitle content = "" then heuristic_title msgs
            else sanitizeTitle content) ≠ ""
        by_cases hs : sanitizeTitle content = ""
        · rw [if_pos hs]; exact heuristic_ne_empty msgs
        · rw [if_neg hs]; exact hs

/-! ### Theorems: title generation claims -/

/-- C6: `generate_summary` applied to the empty message list returns
exactly the placeholder, whatever the model call would have returned. -/
theorem generate_summary_empty_history (modelResp : Option String) :
    generate_summary modelResp [] = "New Conversation" := rfl

/-- C5: on a non-empty history, when the model call raises,
`generate_summary` returns `_heuristic_title`; with no user message that
is exactly the placeholder; with a first user message whose stripped text
has at least one word token, it is the Title-Cased join of that text's
first at-most-8 word tokens.  The exception is absorbed: the function
returns a string in every case. -/
theorem generate_summary_model_failure (msgs : List Msg) (h : msgs ≠ []) :
    generate_summary none msgs = heuristic_title msgs ∧
    (firstHumanContent msgs = none →
      generate_summary none msgs = "New Conversation") ∧
    (∀ s : String, firstHumanContent msgs = some s →
      findTokens (pyStripList s.data) ≠ [] →
      generate_summary none msgs = String.mk (to_title_case (joinSep
        ((findTokens (pyStripList s.data)).take 8)))) := by
  have h1 : generate_summary none msgs = heuristic_title msgs := by
    show (if msgs = [] then ("New Conversation" : String)
        else heuristic_title msgs) = _
    rw [if_neg h]
  refine ⟨h1, ?_, ?_⟩
  · intro hn
    rw [h1]
    unfold heuristic_title
    rw [hn]
    rfl
  · intro s hs htok
    rw [h1]
    have hfu : pyStripList s.data ≠ [] := by
      intro he
      rw [he, findTokens_nil] at htok
      exact htok rfl
    have hgood : ∀ w ∈ (findTokens (pyStripList s.data)).take 8,
        goodTokB w = true :=
      fun w hw => findTokens_good _ w (List.take_subset _ _ hw)
    have hwsne : (findTokens (pyStripList s.data)).take 8 ≠ [] := by
      intro he
      rcases List.take_eq_nil_iff.mp he with h8 | h0
      · exact absurd h8 (by decide)
      · exact htok h0
    have htne : String.mk (to_title_case
        (joinSep ((findTokens (pyStripList s.data)).take 8))) ≠ "" :=
      fun he => titleJoin_ne_nil _ hgood hwsne (congrArg String.data he)
    unfold heuristic_title
    rw [hs]
    show (if pyStripList s.data = [] then ("New Conversation" : String)
        else _) = _
    rw [if_neg hfu]
    show (if String.mk (to_title_case
        (joinSep ((findTokens (pyStripList s.data)).take 8))) = "" then
        ("New Conversation" : String) else _) = _
    rw [if_neg htne]

/-- Witness for `generate_summary_model_failure` at the spec's example
input, evaluating the heuristic concretely. -/
theorem generate_summary_model_failure_witness :
    (generate_summary none [Msg.human
        "What is the capital of France and why is it important historically"] =
      heuristic_title [Msg.human
        "What is the capital of France and why is it important historically"] ∧
    (firstHumanContent [Msg.human
        "What is the capital of France and why is it important historically"] =
        none →
      generate_summary none [Msg.human
        "What is the capital of France and why is it important historically"] =
        "New Conversation") ∧
    (∀ s : String, firstHumanContent [Msg.human
        "What is the capital of France and why is it important historically"] =
        some s →
      findTokens (pyStripList s.data) ≠ [] →
      generate_summary none [Msg.human
        "What is the capital of France and why is it important historically"] =
        String.mk (to_title_case (joinSep
          ((findTokens (pyStripList s.data)).take 8))))) ∧
    generate_summary none [Msg.human
        "What is the capital of France and why is it important historically"] =
      "What Is The Capital Of France And Why" :=
  ⟨generate_summary_model_failure [Msg.human
      "What is the capital of France and why is it important historically"]
    (by decide), by decide⟩

set_option maxHeartbeats 1000000 in
/-- C7: on a non-empty history, `generate_summary` returns the sanitized
model response unless sanitization is empty, in which case the heuristic
fallback is used; the sanitized title is the Title-Cased join of the first
at-most-8 word tokens of the quote-stripped, bullet-stripped,
trailing-punctuation-stripped response; it contains no quote, bullet or
listed punctuation character anywhere (in particular not trailing), and it
has at most 8 word tokens. -/
theorem generate_summary_sanitize (content : String) (msgs : List Msg)
    (h : msgs ≠ []) :
    generate_summary (some content) msgs =
      (if sanitizeTitle content = "" then heuristic_title msgs
       else sanitizeTitle content) ∧
    sanitizeTitle content = String.mk (to_title_case (joinSep
      ((findTokens (stripTrailing trailPunctChars (removeChars bulletChars
        (removeChars quoteChars (pyStripList content.data))))).take 8))) ∧
    (∀ c ∈ (sanitizeTitle content).data,
      c ∉ quoteChars ∧ c ∉ bulletChars ∧ c ∉ trailPunctChars) ∧
    (findTokens (sanitizeTitle content).data).length ≤ 8 := by
  have hgood : ∀ w ∈ (findTokens (stripTrailing trailPunctChars
      (removeChars bulletChars (removeChars quoteChars
        (pyStripList content.data))))).take 8, goodTokB w = true :=
    fun w hw => findTokens_good _ w (List.take_subset _ _ hw)
  have hstr : sanitizeTitle content = String.mk (to_title_case (joinSep
      ((findTokens (stripTrailing trailPunctChars (removeChars bulletChars
        (removeChars quoteChars (pyStripList content.data))))).take 8))) := rfl
  have hdata : (sanitizeTitle content).data = to_title_case (joinSep
      ((findTokens (stripTrailing trailPunctChars (removeChars bulletChars
        (removeChars quoteChars (pyStripList content.data))))).take 8)) :=
    congrArg String.data hstr
  refine ⟨?_, hstr, ?_, ?_⟩
  · show (if msgs = [] then ("New Conversation" : String) else _) = _
    rw [if_neg h]
  · intro c hc
    rw [hdata, titleJoin_eq _ hgood] at hc
    have hchars : ∀ t ∈ ((findTokens (stripTrailing trailPunctChars
        (removeChars bulletChars (removeChars quoteChars
          (pyStripList content.data))))).take 8).map (pyTitleAux false),
        ∀ x ∈ t, isTokChar x = true := by
      intro t ht x hx
      obtain ⟨_, _, _, _, hall⟩ := goodTokB_parts (map_pyTitle_good _ hgood t ht)
      exact hall x hx
    rcases joinSep_chars _ hchars c hc with htok | rfl
    · exact tokChar_not_removed c htok
    · exact ⟨by decide, by decide, by decide⟩
  · rw [hdata, titleJoin_tokens _ hgood, List.length_map]
    exact List.length_take_le _ _

set_option maxHeartbeats 1000000 in
/-- Witness for `generate_summary_sanitize` at a concrete over-long noisy
model response, with the sanitized output evaluated. -/
theorem generate_summary_sanitize_witness :
    (generate_summary (some "  \"The Capital of France: its Long History, explained!!\"  ")
        [Msg.human "hi"] =
      (if sanitizeTitle "  \"The Capital of France: its Long History, explained!!\"  " = ""
       then heuristic_title [Msg.human "hi"]
       else sanitizeTitle "  \"The Capital of France: its Long History, explained!!\"  ") ∧
    sanitizeTitle "  \"The Capital of France: its Long History, explained!!\"  " =
      String.mk (to_title_case (joinSep
        ((findTokens (stripTrailing trailPunctChars (removeChars bulletChars
          (removeChars quoteChars (pyStripList
            "  \"The Capital of France: its Long History, explained!!\"  ".data))))).take 8))) ∧
    (∀ c ∈ (sanitizeTitle "  \"The Capital of France: its Long History, explained!!\"  ").data,
      c ∉ quoteChars ∧ c ∉ bulletChars ∧ c ∉ trailPunctChars) ∧
    (findTokens (sanitizeTitle
      "  \"The Capital of France: its Long History, explained!!\"  ").data).length ≤ 8) ∧
    sanitizeTitle "  \"The Capital of France: its Long History, explained!!\"  " =
      "The Capital Of France Its Long History Explained" :=
  ⟨generate_summary_sanitize
      "  \"The Capital of France: its Long History, explained!!\"  "
      [Msg.human "hi"] (by decide), by decide⟩

/-! ### Theorems: one-time title persistence -/

/-- C2 (counterexample): with the empty string stored as a thread's title
— a title other than the placeholder — a further completed turn passes
the `not existing_title` truthiness guard, so the generator is invoked and
the stored title is overwritten. -/
theorem title_regenerated_on_empty_title :
    get_thread_summary [⟨"t1", "", "ts0"⟩] "t1" = some "" ∧
    ("" : String) ≠ "New Conversation" ∧
    (titleStep [⟨"t1", "", "ts0"⟩] [] "t1" [Msg.human "hi there"] none "ts1").2.2
      = true ∧
    get_thread_summary
      (titleStep [⟨"t1", "", "ts0"⟩] [] "t1" [Msg.human "hi there"] none "ts1").1
      "t1" = some "Hi There" := by
  refine ⟨rfl, by decide, rfl, by decide⟩

/-- C2 (amended): once a non-empty title other than the placeholder is
stored for a thread id, a further completed turn neither invokes the
generator nor changes the summary table or session dict; and the program
can only ever store non-empty titles, since `generate_summary` never
returns the empty string. -/
theorem title_once_nonempty (db : SummaryDB) (sess : List (String × String))
    (tid : String) (msgs : List Msg) (mr : Option String) (now t : String)
    (hstored : get_thread_summary db tid = some t) (hne : t ≠ "")
    (hnp : t ≠ "New Conversation") :
    titleStep db sess tid msgs mr now = (db, sess, false) ∧
    (∀ (mr' : Option String) (msgs' : List Msg),
      generate_summary mr' msgs' ≠ "") := by
  refine ⟨?_, fun mr' msgs' => generate_summary_ne_empty mr' msgs'⟩
  unfold titleStep
  rw [hstored]
  show (if (decide (t = "") || decide (t = "New Conversation")) = true
      then _ else (db, sess, false)) = (db, sess, false)
  rw [if_neg (by simp [hne, hnp])]

/-- Witness for `title_once_nonempty` at a concrete stored title. -/
theorem title_once_nonempty_witness :
    titleStep [⟨"t1", "Trip Planning", "ts0"⟩] [] "t1" [Msg.human "hi"]
        none "ts1" = ([⟨"t1", "Trip Planning", "ts0"⟩], [], false) ∧
    (∀ (mr' : Option String) (msgs' : List Msg),
      generate_summary mr' msgs' ≠ "") :=
  title_once_nonempty [⟨"t1", "Trip Planning", "ts0"⟩] [] "t1"
    [Msg.human "hi"] none "ts1" "Trip Planning" (by decide) (by decide)
    (by decide)

/-! ### Theorems: agent graph cycle limit -/

/-- C3: a model that always requests at least one tool call drives the
engine into the cycle-limit failure after the configured number of rounds,
for every configured limit and every starting history — never an endless
loop, never a successful turn. -/
theorem graph_cycle_limit (model : List Msg → AgentResp)
    (toolExec : String → String)
    (h : ∀ hist, (model hist).tool_calls ≠ []) :
    ∀ (limit : Nat) (msgs : List Msg),
      ∃ ms, runGraph model toolExec limit msgs = .cycleLimitExceeded ms := by
  intro limit
  induction limit with
  | zero => exact fun msgs => ⟨msgs, rfl⟩
  | succ n ih =>
      intro msgs
      simp only [runGraph]
      rw [if_neg (h msgs)]
      exact ih _

/-- Witness for `graph_cycle_limit`: a model that always requests the
search tool, run with limit 3 from the empty history. -/
theorem graph_cycle_limit_witness :
    ∃ ms, runGraph (fun _ => ⟨"", ["tavily_search"]⟩)
      (fun _ => "search result") 3 [] = RunResult.cycleLimitExceeded ms :=
  graph_cycle_limit (fun _ => ⟨"", ["tavily_search"]⟩) (fun _ => "search result")
    (fun _ => List.cons_ne_nil "tavily_search" []) 3 []

/-! ### Theorems: thread-select display reconstruction -/

theorem buildDisplay_human (c : String) (rest : List Msg) (p : List String) :
    buildDisplay (Msg.human c :: rest) p =
      (Entry.user c :: (buildDisplay rest p).1, (buildDisplay rest p).2) := rfl

theorem buildDisplay_tool (n c : String) (rest : List Msg) (p : List String) :
    buildDisplay (Msg.tool n c :: rest) p = buildDisplay rest (p ++ [n]) := rfl

theorem buildDisplay_ai (c : String) (tc : List String) (rest : List Msg)
    (p : List String) : buildDisplay (Msg.ai c tc :: rest) p =
      (Entry.assistant c p :: (buildDisplay rest []).1,
        (buildDisplay rest []).2) := rfl

theorem trailTools_cons (m : Msg) (rest : List Msg) :
    trailTools (m :: rest) =
      if rest.any Msg.isAI = true then trailTools rest
      else if m.isAI = true then toolNamesOf rest
      else (Msg.toolName m).toList ++ trailTools rest := rfl

theorem attachFA_nil (es : List Entry) :
    attachToFirstAssistant [] es = es := by
  induction es with
  | nil => rfl
  | cons e rest ih =>
      cases e with
      | user c => simp [attachToFirstAssistant, ih]
      | assistant c tl => simp [attachToFirstAssistant]

theorem attachFA_append (p q : List String) (es : List Entry) :
    attachToFirstAssistant (p ++ q) es =
      attachToFirstAssistant p (attachToFirstAssistant q es) := by
  induction es with
  | nil => rfl
  | cons e rest ih =>
      cases e with
      | user c => simp [attachToFirstAssistant, ih]
      | assistant c tl => simp [attachToFirstAssistant]

theorem buildDisplay_fst (msgs : List Msg) :
    ∀ p, (buildDisplay msgs p).1 =
      attachToFirstAssistant p (displaySpecCore msgs) := by
  induction msgs with
  | nil => intro p; rfl
  | cons m rest ih =>
      intro p
      cases m with
      | human c => simp [buildDisplay, displaySpecCore, attachToFirstAssistant, ih]
      | ai c tc =>
          simp [buildDisplay, displaySpecCore, attachToFirstAssistant, ih,
            attachFA_nil]
      | tool n c =>
          show (buildDisplay rest (p ++ [n])).1 =
            attachToFirstAssistant p (attachToFirstAssistant [n] (displaySpecCore rest))
          rw [ih, attachFA_append]

theorem trailTools_of_no_ai (msgs : List Msg)
    (h : msgs.any Msg.isAI = false) : trailTools msgs = toolNamesOf msgs := by
  induction msgs with
  | nil => rfl
  | cons m rest ih =>
      rw [List.any_cons, Bool.or_eq_false_iff] at h
      cases m with
      | human c =>
          rw [trailTools_cons, if_neg (by simp [h.2]), if_neg (by simp [Msg.isAI]),
            ih h.2]
          simp [toolNamesOf, Msg.toolName]
      | ai c tc => exact absurd h.1 (by simp [Msg.isAI])
      | tool n c =>
          rw [trailTools_cons, if_neg (by simp [h.2]), if_neg (by simp [Msg.isAI]),
            ih h.2]
          simp [toolNamesOf, Msg.toolName]

theorem buildDisplay_snd (msgs : List Msg) :
    ∀ p, (buildDisplay msgs p).2 =
      (if msgs.any Msg.isAI = true then [] else p) ++ trailTools msgs := by
  induction msgs with
  | nil => intro p; simp [buildDisplay, trailTools]
  | cons m rest ih =>
      intro p
      by_cases hAI : rest.any Msg.isAI = true
      · cases m with
        | human c =>
            show (buildDisplay rest p).2 = _
            rw [ih p, trailTools_cons]
            simp only [List.any_cons, hAI, Msg.isAI, Msg.toolName]
            simp
        | tool n c =>
            show (buildDisplay rest (p ++ [n])).2 = _
            rw [ih (p ++ [n]), trailTools_cons]
            simp only [List.any_cons, hAI, Msg.isAI, Msg.toolName]
            simp
        | ai c tc =>
            show (buildDisplay rest []).2 = _
            rw [ih [], trailTools_cons]
            simp only [List.any_cons, hAI, Msg.isAI]
            simp
      · have hF : rest.any Msg.isAI = false := by simpa using hAI
        cases m with
        | human c =>
            show (buildDisplay rest p).2 = _
            rw [ih p, trailTools_cons]
            simp only [List.any_cons, hF, Msg.isAI, Msg.toolName]
            simp
        | tool n c =>
            show (buildDisplay rest (p ++ [n])).2 = _
            rw [ih (p ++ [n]), trailTools_cons]
            simp only [List.any_cons, hF, Msg.isAI, Msg.toolName]
            simp
        | ai c tc =>
            show (buildDisplay rest []).2 = _
            rw [ih [], trailTools_cons, trailTools_of_no_ai rest hF]
            simp only [List.any_cons, hF, Msg.isAI]
            simp

theorem flatTools_cons (e : Entry) (es : List Entry) :
    flatTools (e :: es) = entryTools e ++ flatTools es := by
  simp [flatTools]

theorem buildDisplay_flat (msgs : List Msg) :
    ∀ p, flatTools (buildDisplay msgs p).1 ++ (buildDisplay msgs p).2 =
      p ++ toolNamesOf msgs := by
  induction msgs with
  | nil => intro p; simp [buildDisplay, flatTools, toolNamesOf]
  | cons m rest ih =>
      intro p
      cases m with
      | human c =>
          simp only [buildDisplay, flatTools_cons, entryTools, List.nil_append,
            toolNamesOf, List.filterMap_cons]
          simpa [toolNamesOf, Msg.toolName] using ih p
      | tool n c =>
          show flatTools (buildDisplay rest (p ++ [n])).1 ++
              (buildDisplay rest (p ++ [n])).2 = p ++ toolNamesOf (Msg.tool n c :: rest)
          rw [ih]
          simp [toolNamesOf, Msg.toolName, List.filterMap_cons]
      | ai c tc =>
          simp only [buildDisplay, flatTools_cons, entryTools, List.append_assoc]
          rw [ih]
          simp [toolNamesOf, Msg.toolName, List.filterMap_cons]

theorem lastAssistantB_cons_cons (e e' : Entry) (rest : List Entry) :
    lastAssistantB (e :: e' :: rest) = lastAssistantB (e' :: rest) := by
  simp [lastAssistantB]

theorem flatTools_attachToLast (p : List String) :
    ∀ es : List Entry, lastAssistantB es = true →
      flatTools (attachToLast p es) = flatTools es ++ p := by
  intro es
  induction es with
  | nil => intro h; cases h
  | cons e rest ih =>
      intro h
      cases rest with
      | nil =>
          cases e with
          | user c => exact absurd h (by simp [lastAssistantB, Entry.isAssistant])
          | assistant c tl => simp [attachToLast, flatTools, entryTools]
      | cons e' rest' =>
          rw [lastAssistantB_cons_cons] at h
          show flatTools (e :: attachToLast p (e' :: rest')) =
            flatTools (e :: e' :: rest') ++ p
          rw [flatTools_cons, flatTools_cons, ih h, List.append_assoc]

/-- C4 (counterexample): a checkpointed sequence consisting of a lone tool
result — no agent message anywhere — reconstructs to the empty display
list: the tool result is silently dropped, with no entry to carry it. -/
theorem reconstruct_drops_lone_tool :
    reconstruct [Msg.tool "tavily_search" "r"] = [] ∧
    toolNamesOf [Msg.tool "tavily_search" "r"] = ["tavily_search"] ∧
    flatTools (reconstruct [Msg.tool "tavily_search" "r"]) = [] := by
  refine ⟨?_, ?_, ?_⟩ <;> decide

/-- C4 (amended): the reconstruction equals the amended attachment policy
— tool results followed by a later agent message attach to that message's
entry, trailing ones attach to the last entry when it is an assistant
entry and are dropped otherwise — and the accounting equation: the tools
carried by the display list, plus the trailing tool names in exactly the
dropped case, are the sequence's tool names in order. -/
theorem reconstruct_amended_policy (msgs : List Msg) :
    reconstruct msgs = displaySpec msgs ∧
    flatTools (reconstruct msgs) ++
      (if trailTools msgs ≠ [] ∧ lastAssistantB (displaySpecCore msgs) = true
       then [] else trailTools msgs) = toolNamesOf msgs := by
  have h1 : (buildDisplay msgs []).1 = displaySpecCore msgs := by
    rw [buildDisplay_fst msgs [], attachFA_nil]
  have h2 : (buildDisplay msgs []).2 = trailTools msgs := by
    rw [buildDisplay_snd msgs []]
    by_cases hAI : msgs.any Msg.isAI = true <;> simp [hAI]
  have h5 : flatTools (displaySpecCore msgs) ++ trailTools msgs = toolNamesOf msgs := by
    have := buildDisplay_flat msgs []
    rw [h1, h2] at this
    simpa using this
  have hrec : reconstruct msgs =
      (if trailTools msgs ≠ [] ∧ lastAssistantB (displaySpecCore msgs) = true
       then attachToLast (trailTools msgs) (displaySpecCore msgs)
       else displaySpecCore msgs) := by
    show (if (buildDisplay msgs []).2 ≠ [] ∧
          lastAssistantB (buildDisplay msgs []).1 = true
        then attachToLast (buildDisplay msgs []).2 (buildDisplay msgs []).1
        else (buildDisplay msgs []).1) = _
    rw [h1, h2]
  constructor
  · rw [hrec]; rfl
  · by_cases hc : trailTools msgs ≠ [] ∧ lastAssistantB (displaySpecCore msgs) = true
    · rw [hrec, if_pos hc, if_pos hc, flatTools_attachToLast _ _ hc.2,
        List.append_nil, h5]
    · rw [hrec, if_neg hc, if_neg hc, h5]

/-- Witness for `add_thread_idempotent` at a concrete session state. -/
theorem add_thread_idempotent_witness :
    (add_thread ⟨["t1"], [("t1", "Trip Planning")]⟩ "t1" =
      ⟨["t1"], [("t1", "Trip Planning")]⟩) ∧
    (∀ t, dictGet [("t1", "Trip Planning")] "t1" = some t →
      dictGet (add_thread ⟨["t1"], [("t1", "Trip Planning")]⟩ "t1").thread_summaries
        "t1" = some t) ∧
    (∀ st' : SessionState, ∀ id' : String, st'.chat_threads.Nodup →
      (add_thread st' id').chat_threads.Nodup) :=
  add_thread_idempotent ⟨["t1"], [("t1", "Trip Planning")]⟩ "t1"
    (by decide) (by decide)

end Chatbot
